import Mathlib

/-!
Shallow embedding of `share_setup.py` (iRacing setup P2P sharing tool) and
verification of its specification claims.

The Python program consists of:
* `scan_path` — wraps the external `clamscan` scanner;
* `ShareServer.register_peer` — joins the DHT peer registry;
* `ShareServer.handle_list` / `handle_download` — HTTP catalog and transfer
  endpoints over a shared directory of `.sto` files;
* `ShareServer.get_ip` — local address discovery via a UDP probe;
* `fetch_peers`, `list_available`, `download_from_peer`, `cli_main` — the
  client side.

External collaborators (the DHT store, the HTTP transport, the scanner
subprocess, the socket probe, the filesystem) are modelled as explicit
outcome parameters; the Python control flow around them is translated
statement by statement into total Lean functions.
-/

/-! ## Filesystem model -/

/-- A node of the filesystem: a regular file with byte content, or a
directory with a list of named children (in directory-listing order). -/
inductive FsNode where
  | file (content : List Nat)
  | dir (children : List (String × FsNode))

/-- Whether an optional node is a regular file (`Path.is_file()`). -/
def isFileNode : Option FsNode → Bool
  | some (.file _) => true
  | _ => false

/-- Look up the child of a directory-children list by name (first match,
as the OS has unique names per directory). -/
def childNamed (name : String) : List (String × FsNode) → Option FsNode
  | [] => none
  | (n, node) :: rest => if n = name then some node else childNamed name rest

/-- Follow a relative path (list of components, no `..`/`.`) down from a
node. -/
def lookupPath (fs : FsNode) : List String → Option FsNode
  | [] => some fs
  | seg :: rest =>
    match fs with
    | .file _ => none
    | .dir ch =>
      match childNamed seg ch with
      | some node => lookupPath node rest
      | none => none

/-- Resolve a path against the filesystem the way the kernel walks it:
`cur` is the already-walked absolute path (a directory), and each `..`
component pops one level while `.` is skipped.  This is what the OS does
when Python asks `Path.is_file()` on a path containing `..` components. -/
def resolve (fs : FsNode) : List String → List String → Option FsNode
  | cur, [] => lookupPath fs cur
  | cur, seg :: rest =>
    match lookupPath fs cur with
    | some (.dir _) =>
      if seg = ".." then resolve fs cur.dropLast rest
      else if seg = "." then resolve fs cur rest
      else resolve fs (cur ++ [seg]) rest
    | _ => none

/-- The suffix of a path's final component, exactly as `pathlib.PurePath.suffix`
computes it: the substring from the last `.` on, provided that dot is
neither the first nor the last character of the name; otherwise empty. -/
def pySuffix (name : String) : String :=
  let chars := name.toList
  let dots := (List.range chars.length).filter (fun i => chars.getD i ' ' = '.')
  match dots.getLast? with
  | none => ""
  | some i =>
    if 0 < i ∧ i + 1 < chars.length then String.mk (chars.drop i) else ""

/-! ## Catalog Service: `handle_list` -/

/-- Whether the pathlib glob pattern `*.sto` matches a directory entry name:
exactly the names ending in `.sto`.  Pathlib globbing matches hidden
dot-prefixed entries too (including the bare name `.sto`), and matches
entries of any file type, directories included. -/
def globSto (name : String) : Bool :=
  name.toList.reverse.take 4 == ['o', 't', 's', '.']

/-- Embedding of `ShareServer.handle_list`: for each entry of the shared
root that is a directory ("car" category), the names of its children
matching `*.sto`.  `none` when the shared root is not a directory
(`os.listdir` would raise). -/
def handle_list (root : FsNode) : Option (List (String × List String)) :=
  match root with
  | .file _ => none
  | .dir ch =>
    some (ch.filterMap fun c =>
      match c.2 with
      | .dir sub => some (c.1, (sub.map Prod.fst).filter globSto)
      | .file _ => none)

/-! ## Transfer Service, serving side: `handle_download` -/

/-- Result of a download request: HTTP 404 or the file bytes. -/
inductive DlResp where
  | notFound
  | fileResp (content : List Nat)
deriving DecidableEq

/-- Embedding of `ShareServer.handle_download`: builds
`self.directory / car / fname`, serves it when `Path.is_file()` holds and
the path suffix is `.sto`, else 404.  `fs` is the whole filesystem and
`rootPath` the absolute path of the shared directory; `car` and `fname`
are the decoded URL match segments. -/
def handle_download (fs : FsNode) (rootPath : List String)
    (car fname : String) : DlResp :=
  let file_path := rootPath ++ [car, fname]
  match resolve fs [] file_path with
  | some (.file content) =>
    if pySuffix fname ≠ ".sto" then .notFound else .fileResp content
  | _ => .notFound

/-! ## Scan Gate: `scan_path` -/

/-- Outcome of invoking the external `clamscan` subprocess: it ran and
exited with a return code, or the executable was not found
(`FileNotFoundError`). -/
inductive ScannerOutcome where
  | available (returncode : Int)
  | unavailable
deriving DecidableEq

/-- Embedding of `scan_path`: the boolean the Python function returns to
its caller.  A completed scan is clean iff the return code is 0; when the
scanner is missing the function returns `True`. -/
def scan_path : ScannerOutcome → Bool
  | .available rc => rc == 0
  | .unavailable => true

/-- The line `scan_path` prints to stdout (not part of its return value):
only the scanner-missing branch prints. -/
def scan_path_msg : ScannerOutcome → Option String
  | .available _ => none
  | .unavailable => some "clamscan not found, skipping virus scan"

/-! ## Peer Directory: `register_peer`, `fetch_peers` -/

/-- Outcome of reading the `peers` key from the DHT, combined with
`json.loads`: the `get` call raised, returned a falsy value (key absent),
returned a string `json.loads` rejects (the raise is caught by the same
`except`), or decoded to a list of address strings. -/
inductive StoreRead where
  | raiseErr
  | absent
  | badJson
  | okList (peers : List String)
deriving DecidableEq

/-- The value the local variable `peers` holds after the `try` block of
`register_peer` (and of `fetch_peers`): the decoded list on success,
`[]` on every failure path. -/
def readPeers : StoreRead → List String
  | .okList l => l
  | _ => []

/-- Embedding of `ShareServer.register_peer` for address `addr`: returns
the final local `peers` list and the value passed to `dht.set`
(`none` when no write is attempted).  A failing `dht.set` is caught and
ignored, so the result does not depend on the write outcome. -/
def register_peer (read : StoreRead) (addr : String) :
    List String × Option (List String) :=
  let peers := readPeers read
  if addr ∈ peers then (peers, none)
  else (peers ++ [addr], some (peers ++ [addr]))

/-- Embedding of `fetch_peers`: the peer list returned to the caller;
every store failure path yields `[]`. -/
def fetch_peers (read : StoreRead) : List String :=
  match read with
  | .okList l => l
  | _ => []

/-! ## Local address discovery: `get_ip` -/

/-- Embedding of `ShareServer.get_ip`: the UDP probe either reports the
local socket address or raises, in which case the `except` branch yields
the loopback address. -/
def get_ip (probe : Option String) : String :=
  match probe with
  | some ip => ip
  | none => "127.0.0.1"

/-- The address string `register_peer` builds with an f-string: the probed
ip, a colon, and the decimal port. -/
def localAddr (probe : Option String) (port : Nat) : String :=
  get_ip probe ++ ":" ++ toString port

/-! ## Client catalog query: `list_available` -/

/-- One peer's response to `GET /list`: any network error, timeout or
`resp.json()` failure is a single `failure` outcome (all are caught by
the same `except Exception`); otherwise the decoded mapping
car → file names. -/
inductive PeerResp where
  | failure
  | ok (data : List (String × List String))
deriving DecidableEq

/-- Dictionary lookup `data[car]` guarded by `car in data`. -/
def lookupCar (car : String) : List (String × List String) → Option (List String)
  | [] => none
  | (c, fs) :: rest => if c = car then some fs else lookupCar car rest

/-- The `(peer, fname)` pairs one peer adds to `results`: nothing on
failure or when `car` is absent from its mapping. -/
def peerContribution (car peer : String) (resp : PeerResp) :
    List (String × String) :=
  match resp with
  | .failure => []
  | .ok data =>
    match lookupCar car data with
    | some fnames => fnames.map fun f => (peer, f)
    | none => []

/-- Embedding of `list_available`: iterates over the peers in order,
appending each peer's contribution; a failing peer hits `continue`. -/
def list_available (car : String) : List (String × PeerResp) → List (String × String)
  | [] => []
  | (peer, resp) :: rest => peerContribution car peer resp ++ list_available car rest

/-! ## Transfer Service, fetching side: `download_from_peer` and the
`cli_main` download branch -/

/-- The destination category directory during a fetch: whether
`dest_dir` exists yet and its entries. -/
structure DestDir where
  present : Bool
  children : List (String × FsNode)

/-- Create-or-truncate a named entry, as opening a file in `wb` mode does. -/
def setEntry (name : String) (node : FsNode) :
    List (String × FsNode) → List (String × FsNode)
  | [] => [(name, node)]
  | (n, m) :: rest =>
    if n = name then (n, node) :: rest else (n, m) :: setEntry name node rest

/-- Remove a named entry if present, as `Path.unlink` with missing-ok does. -/
def delEntry (name : String) :
    List (String × FsNode) → List (String × FsNode)
  | [] => []
  | (n, m) :: rest => if n = name then rest else (n, m) :: delEntry name rest

/-- Embedding of `download_from_peer`: `resp.raise_for_status()` raises
for any HTTP status of 400 or above, before `dest_dir.mkdir` and before
the output file is opened; otherwise the directory is created and the
full response body is written to `dest_dir / fname`.  Returns the
destination state after the call together with the normal return value
or the raised status. -/
def download_from_peer (status : Nat) (body : List Nat) (fname : String)
    (d : DestDir) : DestDir × Except Nat String :=
  if 400 ≤ status then (d, .error status)
  else ({ present := true, children := setEntry fname (.file body) d.children },
        .ok fname)

/-- What the `cli_main` download branch reports on its two normal paths. -/
inductive CliReport where
  | downloaded (fname : String)
  | virusDetectedRemoved
deriving DecidableEq

/-- Embedding of the `args.download` branch of `cli_main`: calls
`download_from_peer`, then runs `scan_path` on the written file; on a
clean verdict it reports success, on an infected verdict it unlinks the
file and reports removal.  The first component is the sequence of
destination-directory states after each step (after the download, then
after the scan handling); the second is the printed report, `none` when
`download_from_peer` raised. -/
def cli_download (status : Nat) (body : List Nat) (fname : String)
    (scan : ScannerOutcome) (d : DestDir) : List DestDir × Option CliReport :=
  match download_from_peer status body fname d with
  | (d1, .error _) => ([d1], none)
  | (d1, .ok out) =>
    if scan_path scan then ([d1, d1], some (.downloaded out))
    else ([d1, { d1 with children := delEntry out d1.children }],
          some .virusDetectedRemoved)

/-! ## Swarm Distribution Mode (absent from the source) -/

/-- Modelled from the spec: the repository has no swarm-mode code, so the
ManifestRecord structure of section 3 of the design is taken from its
words: piece size, ordered piece hashes, total length and file layout. -/
structure ManifestRecord where
  pieceSize : Nat
  pieceHashes : List Nat
  totalLength : Nat
  fileLayout : List (String × Nat)
deriving DecidableEq

/-- Modelled from the spec: cut a byte sequence into consecutive pieces
of `ps` bytes, the last piece possibly shorter; a piece size of zero
yields no pieces. -/
def chunks (ps : Nat) : List Nat → List (List Nat)
  | [] => []
  | b :: bs =>
    if _h : ps = 0 then []
    else (b :: bs).take ps :: chunks ps ((b :: bs).drop ps)
termination_by l => l.length
decreasing_by simp [List.length_drop]; omega

/-- Ordering of folder entries by path, used to make manifest generation
canonical. -/
def pathLe (a b : String × List Nat) : Prop := a.1 ≤ b.1

instance : DecidableRel pathLe := fun a b => inferInstanceAs (Decidable (a.1 ≤ b.1))

instance : IsTotal (String × List Nat) pathLe := ⟨fun a b => le_total a.1 b.1⟩

instance : IsTrans (String × List Nat) pathLe := ⟨fun _ _ _ h1 h2 => le_trans h1 h2⟩

/-- Modelled from the spec: folder entries are enumerated in a canonical
order (sorted by path) so that generation does not depend on the OS
listing order. -/
def sortByPath (files : List (String × List Nat)) : List (String × List Nat) :=
  List.insertionSort pathLe files

/-- Modelled from the spec: the publish step of the absent swarm mode
computes a ManifestRecord by hashing fixed-size pieces across the
concatenated file layout, deterministic given file contents and piece
size.  The hash itself is an external collaborator, a parameter here. -/
def genManifest (hash : List Nat → Nat) (pieceSize : Nat)
    (files : List (String × List Nat)) : ManifestRecord :=
  let sorted := sortByPath files
  let bytes := (sorted.map Prod.snd).flatten
  { pieceSize := pieceSize
    pieceHashes := (chunks pieceSize bytes).map hash
    totalLength := bytes.length
    fileLayout := sorted.map fun f => (f.1, f.2.length) }

/-! ## Concrete scenarios used as witnesses and counterexamples -/

/-- The shared root used for the traversal scenario: one category with
one setup file. -/
def shareRootC1 : FsNode :=
  .dir [("Supercar", .dir [("setup1.sto", .file [1])])]

/-- A filesystem whose shared root sits next to a file `evil.sto` that is
outside the shared root. -/
def fsC1 : FsNode :=
  .dir [("share", shareRootC1), ("evil.sto", .file [9, 9, 9])]

/-- A shared root whose single category contains a regular setup file and
a subdirectory whose name also ends in `.sto`. -/
def fsC3 : FsNode :=
  .dir [("CarA", .dir [("a.sto", .file [1]), ("fake.sto", .dir [])])]

/-- A well-formed shared root: one category holding one setup file and
one unrelated text file. -/
def chC3w : List (String × FsNode) :=
  [("CarA", .dir [("a.sto", .file [1]), ("notes.txt", .file [2])])]

/-! ## Helper lemmas -/

/-- The address passed to `register_peer` is always in the final local list. -/
theorem mem_register_peer (read : StoreRead) (addr : String) :
    addr ∈ (register_peer read addr).1 := by
  unfold register_peer
  by_cases h : addr ∈ readPeers read <;> simp [h]

/-- When the address was already present, `register_peer` writes nothing. -/
theorem register_peer_of_mem {read : StoreRead} {addr : String}
    (h : addr ∈ readPeers read) :
    register_peer read addr = (readPeers read, none) := by
  simp [register_peer, h]

/-- When the address was absent, `register_peer` appends it and writes the
appended list back. -/
theorem register_peer_of_not_mem {read : StoreRead} {addr : String}
    (h : addr ∉ readPeers read) :
    register_peer read addr =
      (readPeers read ++ [addr], some (readPeers read ++ [addr])) := by
  simp [register_peer, h]

/-! ## Claim theorems -/

/-- C4 counterexample: with the scanner unavailable, `scan_path` returns
to its caller the very same boolean `true` that an ordinary clean scan
(return code 0) produces, so the caller cannot distinguish the degraded
condition from an ordinary clean verdict. -/
theorem scan_path_unavailable_indistinguishable :
    scan_path .unavailable = scan_path (.available 0) ∧
    scan_path .unavailable = true := by
  decide

/-- C4 amended: when the scanner is unavailable `scan_path` treats the
content as clean; the degraded condition is reported only as a printed
stdout line, while the value returned to the caller equals the ordinary
clean verdict. -/
theorem scan_path_unavailable_prints_only :
    scan_path .unavailable = true ∧
    scan_path_msg .unavailable = some "clamscan not found, skipping virus scan" ∧
    scan_path_msg (.available 0) = none ∧
    scan_path (.available 0) = true := by
  decide

/-- C5: a join appends the local address to the read peer set exactly
when it was absent (writing that appended list back), performs no write
when it was present, preserves every previously read entry, introduces
no duplicate, and always leaves the local address in the resulting set. -/
theorem register_peer_join_spec (read : StoreRead) (addr : String) :
    addr ∈ (register_peer read addr).1 ∧
    (∀ x ∈ readPeers read, x ∈ (register_peer read addr).1) ∧
    (addr ∈ readPeers read → register_peer read addr = (readPeers read, none)) ∧
    (addr ∉ readPeers read →
      register_peer read addr =
        (readPeers read ++ [addr], some (readPeers read ++ [addr]))) ∧
    ((readPeers read).Nodup → (register_peer read addr).1.Nodup) := by
  refine ⟨mem_register_peer read addr, ?_, fun h => register_peer_of_mem h,
    fun h => register_peer_of_not_mem h, ?_⟩
  · intro x hx
    by_cases h : addr ∈ readPeers read
    · simpa [register_peer_of_mem h] using hx
    · simp [register_peer_of_not_mem h, hx]
  · intro hnodup
    by_cases h : addr ∈ readPeers read
    · simpa [register_peer_of_mem h] using hnodup
    · simp [register_peer_of_not_mem h, List.nodup_append, hnodup, h]

/-- C5 witness: joining with a fresh address against a one-entry registry
appends that address and keeps the old entry. -/
theorem register_peer_join_spec_witness :
    register_peer (.okList ["1.2.3.4:9000"]) "10.0.0.2:9000" =
      (["1.2.3.4:9000", "10.0.0.2:9000"], some ["1.2.3.4:9000", "10.0.0.2:9000"]) ∧
    "10.0.0.2:9000" ∈ (register_peer (.okList ["1.2.3.4:9000"]) "10.0.0.2:9000").1 := by
  have h := register_peer_join_spec (.okList ["1.2.3.4:9000"]) "10.0.0.2:9000"
  exact ⟨h.2.2.2.1 (by decide), h.1⟩

/-- C6: a peer whose listing request fails contributes zero results and
the query still returns exactly the results gathered from all the other
peers, in order; no exception propagates (the embedding is a total
function covering the failure outcome). -/
theorem list_available_isolates_failure (car : String)
    (pre post : List (String × PeerResp)) (p : String) :
    list_available car (pre ++ (p, .failure) :: post) =
      list_available car (pre ++ post) := by
  induction pre with
  | nil => simp [list_available, peerContribution]
  | cons hd tl ih => simp [list_available, ih]

/-- C7: neither `register_peer` nor `fetch_peers` propagates a registry
failure: on a raised read, an absent key, or an undecodable value,
`fetch_peers` returns the empty list and `register_peer` proceeds from
the empty set (registering just the local address); the write outcome is
not even inspected. -/
theorem registry_failures_swallowed (addr : String) :
    fetch_peers .raiseErr = [] ∧
    fetch_peers .absent = [] ∧
    fetch_peers .badJson = [] ∧
    register_peer .raiseErr addr = ([addr], some [addr]) ∧
    register_peer .absent addr = ([addr], some [addr]) ∧
    register_peer .badJson addr = ([addr], some [addr]) := by
  refine ⟨rfl, rfl, rfl, ?_, ?_, ?_⟩ <;> simp [register_peer, readPeers]

/-- C9: on any HTTP status of 400 or above (not-found included),
`download_from_peer` raises from `resp.raise_for_status()` before
`dest_dir.mkdir` and before the output file is opened, leaving the
destination directory state completely unchanged. -/
theorem download_from_peer_raises_before_write (status : Nat)
    (body : List Nat) (fname : String) (d : DestDir) (h : 400 ≤ status) :
    download_from_peer status body fname d = (d, .error status) := by
  simp [download_from_peer, h]

/-- C9 witness: a 404 response against a not-yet-created destination
leaves the destination uncreated and empty. -/
theorem download_from_peer_raises_witness :
    download_from_peer 404 [7] "x.sto" ⟨false, []⟩ = (⟨false, []⟩, .error 404) :=
  download_from_peer_raises_before_write 404 [7] "x.sto" ⟨false, []⟩ (by decide)

/-- C10: `get_ip` is total and falls back to the loopback address when
the UDP probe fails, so a join without connectivity always puts the
address `127.0.0.1:<port>` — unreachable by remote peers — into the
local peer list and into any peer set it writes back. -/
theorem get_ip_fallback_registers_loopback (port : Nat) (read : StoreRead) :
    get_ip none = "127.0.0.1" ∧
    localAddr none port = "127.0.0.1:" ++ toString port ∧
    localAddr none port ∈ (register_peer read (localAddr none port)).1 ∧
    (∀ w, (register_peer read (localAddr none port)).2 = some w →
      localAddr none port ∈ w) := by
  refine ⟨rfl, rfl, mem_register_peer read _, ?_⟩
  intro w hw
  by_cases h : localAddr none port ∈ readPeers read
  · simp [register_peer_of_mem h] at hw
  · rw [register_peer_of_not_mem h] at hw
    simp at hw
    simp [← hw]

/-- C10 witness: with a failed probe, port 9000 and an empty registry,
the loopback address is registered and written back. -/
theorem get_ip_fallback_witness :
    localAddr none 9000 ∈ (register_peer (.okList []) (localAddr none 9000)).1 ∧
    localAddr none 9000 ∈ ["127.0.0.1:9000"] := by
  have h := get_ip_fallback_registers_loopback 9000 (.okList [])
  exact ⟨h.2.2.1, h.2.2.2 ["127.0.0.1:9000"] (by decide)⟩

/-- C1: a request with category `..` escapes the shared root: the server
streams the bytes of `evil.sto`, a file that does not exist anywhere
under the shared root, instead of responding NotFound.  An in-root
request and a missing-item request behave as specified, so the missing
piece is exactly the containment check. -/
theorem handle_download_traversal_escape :
    handle_download fsC1 ["share"] ".." "evil.sto" = .fileResp [9, 9, 9] ∧
    lookupPath shareRootC1 ["evil.sto"] = none ∧
    handle_download fsC1 ["share"] "Supercar" "setup1.sto" = .fileResp [1] ∧
    handle_download fsC1 ["share"] "Supercar" "missing.sto" = .notFound := by
  refine ⟨by decide, rfl, by decide, by decide⟩

/-- C3 counterexample: `handle_list` lists the directory `fake.sto` as an
item of category `CarA` although it is not a regular file, because the
glob matches entries of every type. -/
theorem handle_list_lists_non_regular :
    handle_list fsC3 = some [("CarA", ["a.sto", "fake.sto"])] ∧
    "fake.sto" ∈ (((handle_list fsC3).getD []).foldr (fun c acc => c.2 ++ acc) []) ∧
    isFileNode (lookupPath fsC3 ["CarA", "fake.sto"]) = false := by
  refine ⟨by decide, by decide, by decide⟩

/-- C3 amended: the listing returned by `handle_list` has exactly the
immediate subdirectories of the shared root as categories and, within
each, exactly the entry names ending in `.sto` — entries of any file
type, regular or not, hidden names included; and being a plain function
of the live filesystem node, it involves no caching. -/
theorem handle_list_exact (ch : List (String × FsNode))
    (m : List (String × List String)) (hm : handle_list (.dir ch) = some m) :
    (∀ cat items, (cat, items) ∈ m →
      ∃ sub, (cat, FsNode.dir sub) ∈ ch ∧
        items = (sub.map Prod.fst).filter globSto) ∧
    (∀ cat sub, (cat, FsNode.dir sub) ∈ ch →
      (cat, (sub.map Prod.fst).filter globSto) ∈ m) := by
  simp only [handle_list, Option.some.injEq] at hm
  subst hm
  constructor
  · intro cat items h
    rw [List.mem_filterMap] at h
    obtain ⟨⟨n, node⟩, hmem, hf⟩ := h
    cases node with
    | file c => simp at hf
    | dir sub =>
      simp only [Option.some.injEq, Prod.mk.injEq] at hf
      exact ⟨sub, by rw [← hf.1]; exact hmem, hf.2.symm⟩
  · intro cat sub h
    exact List.mem_filterMap.mpr ⟨(cat, .dir sub), h, rfl⟩

/-- C3 amended witness: on a well-formed root with one category holding
`a.sto` and `notes.txt`, the single listed category is backed by a
directory child whose glob-matching names are exactly `a.sto`. -/
theorem handle_list_exact_witness :
    ∃ sub, ("CarA", FsNode.dir sub) ∈ chC3w ∧
      ["a.sto"] = (sub.map Prod.fst).filter globSto :=
  (handle_list_exact chC3w [("CarA", ["a.sto"])] (by decide)).1
    "CarA" ["a.sto"] (by simp)

/-- Names present after a create-or-truncate write: the written name plus
the previous names. -/
theorem mem_map_fst_setEntry_iff (x name : String) (node : FsNode)
    (l : List (String × FsNode)) :
    x ∈ (setEntry name node l).map Prod.fst ↔
      x = name ∨ x ∈ l.map Prod.fst := by
  induction l with
  | nil => simp [setEntry]
  | cons hd tl ih =>
    obtain ⟨n, m⟩ := hd
    by_cases hn : n = name
    · subst hn
      simp [setEntry]
    · simp [setEntry, hn, ih]
      tauto

/-- A create-or-truncate write preserves uniqueness of entry names. -/
theorem nodup_map_fst_setEntry (name : String) (node : FsNode)
    (l : List (String × FsNode)) (h : (l.map Prod.fst).Nodup) :
    ((setEntry name node l).map Prod.fst).Nodup := by
  induction l with
  | nil => simp [setEntry]
  | cons hd tl ih =>
    obtain ⟨n, m⟩ := hd
    simp only [List.map_cons, List.nodup_cons] at h
    by_cases hn : n = name
    · subst hn
      simpa [setEntry] using h
    · simp only [setEntry, if_neg hn, List.map_cons, List.nodup_cons]
      refine ⟨fun hmem => ?_, ih h.2⟩
      rcases (mem_map_fst_setEntry_iff n name node tl).mp hmem with he | hmem2
      · exact hn he
      · exact h.1 hmem2

/-- After unlinking a name from a directory with unique entry names, the
name is gone. -/
theorem not_mem_map_fst_delEntry (name : String)
    (l : List (String × FsNode)) (h : (l.map Prod.fst).Nodup) :
    name ∉ (delEntry name l).map Prod.fst := by
  induction l with
  | nil => simp [delEntry]
  | cons hd tl ih =>
    obtain ⟨n, m⟩ := hd
    simp only [List.map_cons, List.nodup_cons] at h
    by_cases hn : n = name
    · subst hn
      simpa [delEntry] using h.1
    · simp only [delEntry, if_neg hn, List.map_cons, List.mem_cons]
      rintro (he | hmem)
      · exact hn he.symm
      · exact ih h.2 hmem

/-- C2 counterexample: in a run whose scan reports infected, the fetched
file sits in the destination directory itself the moment the download
finishes, before the Scan Gate has judged it — there is no temporary
location and no placement-after-approval. -/
theorem cli_download_writes_destination_before_scan :
    (cli_download 200 [7, 7] "x.sto" (.available 1) ⟨false, []⟩).2 =
      some .virusDetectedRemoved ∧
    ((cli_download 200 [7, 7] "x.sto" (.available 1)
        ⟨false, []⟩).1.headD ⟨false, []⟩).children.map Prod.fst = ["x.sto"] ∧
    ((cli_download 200 [7, 7] "x.sto" (.available 1)
        ⟨false, []⟩).1.getLastD ⟨false, []⟩).children.map Prod.fst = [] := by
  refine ⟨by decide, by decide, by decide⟩

/-- C2 amended: the body is written directly to its final destination
path before the scan runs; when the scan then reports infected, the file
is unlinked — so it is absent from any subsequent listing of the
destination — and the run reports the distinct virus-removed message
rather than a generic I/O failure. -/
theorem cli_download_infected_deletes (status : Nat) (body : List Nat)
    (fname : String) (scan : ScannerOutcome) (d : DestDir)
    (hstatus : status < 400) (hscan : scan_path scan = false)
    (hnodup : (d.children.map Prod.fst).Nodup) :
    (cli_download status body fname scan d).2 = some .virusDetectedRemoved ∧
    fname ∈ ((cli_download status body fname scan d).1.headD d).children.map
      Prod.fst ∧
    fname ∉ ((cli_download status body fname scan d).1.getLastD d).children.map
      Prod.fst := by
  have hnle : ¬ 400 ≤ status := not_le.mpr hstatus
  have hcd : cli_download status body fname scan d =
      ([⟨true, setEntry fname (.file body) d.children⟩,
        ⟨true, delEntry fname (setEntry fname (.file body) d.children)⟩],
        some .virusDetectedRemoved) := by
    simp [cli_download, download_from_peer, hnle, hscan]
  rw [hcd]
  refine ⟨rfl, ?_, ?_⟩
  · exact (mem_map_fst_setEntry_iff fname fname (.file body) d.children).mpr
      (Or.inl rfl)
  · exact not_mem_map_fst_delEntry fname _
      (nodup_map_fst_setEntry fname (.file body) d.children hnodup)

/-- C2 amended witness: a concrete infected fetch into a directory that
already held one setup file. -/
theorem cli_download_infected_witness :
    (cli_download 200 [7] "y.sto" (.available 2)
        ⟨true, [("old.sto", .file [])]⟩).2 = some .virusDetectedRemoved ∧
    "y.sto" ∈ ((cli_download 200 [7] "y.sto" (.available 2)
        ⟨true, [("old.sto", .file [])]⟩).1.headD
        ⟨true, [("old.sto", .file [])]⟩).children.map Prod.fst ∧
    "y.sto" ∉ ((cli_download 200 [7] "y.sto" (.available 2)
        ⟨true, [("old.sto", .file [])]⟩).1.getLastD
        ⟨true, [("old.sto", .file [])]⟩).children.map Prod.fst :=
  cli_download_infected_deletes 200 [7] "y.sto" (.available 2)
    ⟨true, [("old.sto", .file [])]⟩ (by decide) (by decide) (by decide)

/-- Two path-sorted folder listings that are permutations of each other
and have pairwise-distinct paths are equal. -/
theorem eq_of_sorted_perm_nodup_fst (l₁ : List (String × List Nat)) :
    ∀ l₂ : List (String × List Nat), l₁.Perm l₂ →
      l₁.Sorted pathLe → l₂.Sorted pathLe →
      (l₁.map Prod.fst).Nodup → l₁ = l₂ := by
  induction l₁ with
  | nil =>
    intro l₂ hp _ _ _
    exact (hp.symm.eq_nil).symm
  | cons a t ih =>
    intro l₂ hp hs₁ hs₂ hn
    cases l₂ with
    | nil => exact absurd hp.eq_nil (by simp)
    | cons b u =>
      by_cases hab : a = b
      · subst hab
        have ht := ih u hp.cons_inv (List.sorted_cons.mp hs₁).2
          (List.sorted_cons.mp hs₂).2
          (List.nodup_cons.mp (by simpa using hn)).2
        rw [ht]
      · exfalso
        have ha2 : a ∈ u := by
          rcases List.mem_cons.mp (hp.subset (List.mem_cons_self a t)) with h | h
          · exact absurd h hab
          · exact h
        have hb1 : b ∈ t := by
          rcases List.mem_cons.mp (hp.symm.subset (List.mem_cons_self b u)) with h | h
          · exact absurd h.symm hab
          · exact h
        have h1 : pathLe a b := (List.sorted_cons.mp hs₁).1 b hb1
        have h2 : pathLe b a := (List.sorted_cons.mp hs₂).1 a ha2
        have hfst : a.1 = b.1 := le_antisymm h1 h2
        have hmem : a.1 ∈ t.map Prod.fst := by
          rw [hfst]
          exact List.mem_map_of_mem Prod.fst hb1
        exact (List.nodup_cons.mp (by simpa using hn)).1 hmem

/-- Sorting by path maps any reordering of a duplicate-free folder
listing to the same canonical list. -/
theorem sortByPath_eq_of_perm (l₁ l₂ : List (String × List Nat))
    (hp : l₁.Perm l₂) (hn : (l₁.map Prod.fst).Nodup) :
    sortByPath l₁ = sortByPath l₂ := by
  apply eq_of_sorted_perm_nodup_fst
  · exact ((List.perm_insertionSort pathLe l₁).trans hp).trans
      (List.perm_insertionSort pathLe l₂).symm
  · exact List.sorted_insertionSort pathLe l₁
  · exact List.sorted_insertionSort pathLe l₂
  · exact (((List.perm_insertionSort pathLe l₁).map Prod.fst).nodup_iff).mpr hn

/-- C8: manifest generation is a deterministic function of the folder
contents and the piece size: two byte-identical folder listings — even
enumerated in different orders by the OS — with the same piece size and
the same hash collaborator yield identical ManifestRecords. -/
theorem genManifest_deterministic (hash : List Nat → Nat) (ps : Nat)
    (files₁ files₂ : List (String × List Nat)) (hp : files₁.Perm files₂)
    (hn : (files₁.map Prod.fst).Nodup) :
    genManifest hash ps files₁ = genManifest hash ps files₂ := by
  unfold genManifest
  rw [sortByPath_eq_of_perm files₁ files₂ hp hn]

/-- C8 witness: a two-file folder enumerated in the two possible orders
produces the same manifest for piece size 2 and a concrete hash. -/
theorem genManifest_deterministic_witness :
    genManifest (fun bytes => bytes.sum) 2
        [("a.sto", [1, 2, 3]), ("b.sto", [4])] =
      genManifest (fun bytes => bytes.sum) 2
        [("b.sto", [4]), ("a.sto", [1, 2, 3])] :=
  genManifest_deterministic (fun bytes => bytes.sum) 2
    [("a.sto", [1, 2, 3]), ("b.sto", [4])]
    [("b.sto", [4]), ("a.sto", [1, 2, 3])] (by decide) (by decide)
